import Mathlib

/-!
Verification of the chat-room coordination core.

The room type owns three channels (join, leave, forward) and a clients map;
a single goroutine (room.run) processes one event at a time.  Each client
owns a buffered send channel of capacity messageBufferSize created in
room.ServeHTTP.  We embed that coordination loop shallowly:

* a client is identified by a natural number (Go uses distinct pointers);
* the clients map (client to true) is the list of its keys;
* a Go channel used as a mailbox is a Mailbox value: the queued messages
  plus a closed flag;
* a panic in the run goroutine (which kills the loop, and with it the
  process) is the faulted flag; once faulted, no further event has any
  effect, modelling that the loop is dead;
* each select case of room.run becomes one arm of the step function.

Fidelity notes, traced line by line against room.run:
* join:    r.clients[client] = true; trace "New client joined".  Map
  assignment is a no-op on a present key (mapInsert).
* leave:   delete(r.clients, client); close(client.send); trace
  "Client left".  In Go, close of an already-closed channel panics, so
  when the mailbox is already closed the delete has happened but the
  close faults the goroutine and the trace is never emitted.
* forward: for client := range r.clients { select { case client.send
  <- msg: trace | default: delete; close; trace } }.  A non-blocking
  send on an open buffered channel succeeds exactly when the buffer
  holds fewer than its capacity of elements; on a closed channel the
  send case is always ready and executing it panics; otherwise the
  default case runs.  Keys deleted during ranging are only the key
  currently being visited, so folding over a snapshot of the key list
  is exact.
-/

/-- A message is an opaque byte sequence ([]byte in the source). -/
abbrev Msg := List Nat

/-- const socketBufferSize = 1024 from the source. -/
def socketBufferSize : Nat := 1024

/-- const messageBufferSize = 256 from the source; the capacity of every
client send channel (make(chan []byte, messageBufferSize)). -/
def messageBufferSize : Nat := 256

/-- The state of one client send channel: queued messages plus whether
the channel has been closed. -/
structure Mailbox where
  pending : List Msg
  closed : Bool
  deriving DecidableEq, Repr

/-- The trace string emitted by the join case of room.run. -/
def joinTrace : String := "New client joined"

/-- The trace string emitted by the leave case of room.run. -/
def leaveTrace : String := "Client left"

/-- The trace string emitted on a successful send in the forward case. -/
def sentTrace : String := " -- sent to client"

/-- The trace string emitted on a failed send in the forward case. -/
def failTrace : String := " -- failed to send, cleaned up client"

/-- The state of the room as seen by the run goroutine: the key list of
the clients map, the state of every client send channel, the trace
output so far, and whether the goroutine has panicked. -/
structure RoomState where
  clients : List Nat
  mailbox : Nat → Mailbox
  trace : List String
  faulted : Bool

/-- Go map assignment m[k] = true on the key list: a no-op when the key
is present, otherwise the key is added. -/
def mapInsert (s : Nat) (cs : List Nat) : List Nat :=
  if s ∈ cs then cs else cs ++ [s]

/-- Pointwise update of the mailbox assignment at one client. -/
def setMailbox (f : Nat → Mailbox) (c : Nat) (mb : Mailbox) : Nat → Mailbox :=
  fun t => if t = c then mb else f t

/-- The three events the run goroutine selects on. -/
inductive Event where
  | join (s : Nat)
  | leave (s : Nat)
  | forward (m : Msg)

/-- One iteration of the forward fan-out body for one ranged client c:
select { case c.send <- msg: trace sent | default: delete(clients, c);
close(c.send); trace failed }.  A send on a closed channel panics; a
send on a full open channel is not ready so the default runs; otherwise
the message is enqueued. -/
def forwardTo (st : RoomState) (c : Nat) (m : Msg) : RoomState :=
  if st.faulted then st
  else if (st.mailbox c).closed then
    { st with faulted := true }
  else if (st.mailbox c).pending.length < messageBufferSize then
    { st with
        mailbox := setMailbox st.mailbox c ⟨(st.mailbox c).pending ++ [m], false⟩,
        trace := st.trace ++ [sentTrace] }
  else
    { st with
        clients := st.clients.erase c,
        mailbox := setMailbox st.mailbox c ⟨(st.mailbox c).pending, true⟩,
        trace := st.trace ++ [failTrace] }

/-- The forward case of room.run: fold the per-client body over the
snapshot of the key list of the clients map. -/
def forwardAll (st : RoomState) (cs : List Nat) (m : Msg) : RoomState :=
  cs.foldl (fun acc c => forwardTo acc c m) st

/-- One select iteration of room.run, processing a single event.  A
faulted (panicked) loop processes nothing. -/
def step (st : RoomState) (e : Event) : RoomState :=
  match e with
  | Event.join s =>
      if st.faulted then st
      else { st with clients := mapInsert s st.clients, trace := st.trace ++ [joinTrace] }
  | Event.leave s =>
      if st.faulted then st
      else if (st.mailbox s).closed then
        { st with clients := st.clients.erase s, faulted := true }
      else
        { st with
            clients := st.clients.erase s,
            mailbox := setMailbox st.mailbox s ⟨(st.mailbox s).pending, true⟩,
            trace := st.trace ++ [leaveTrace] }
  | Event.forward m =>
      if st.faulted then st
      else forwardAll st st.clients m

/-- newRoom from the source: empty clients map, no trace yet, loop
alive.  Every client send channel is created fresh and open in
room.ServeHTTP, so the mailbox assignment starts open and empty. -/
def newRoom : RoomState :=
  { clients := [], mailbox := fun _ => ⟨[], false⟩, trace := [], faulted := false }

/-- Replay a list of events through the loop from a given state. -/
def runFrom (st : RoomState) (es : List Event) : RoomState :=
  es.foldl step st

/-- Replay a list of events through one coordination loop from the
initial room state. -/
def run (es : List Event) : RoomState :=
  runFrom newRoom es

/-- The effect of one non-blocking enqueue onto an open mailbox, as
performed by the forward case: enqueue when below capacity, otherwise
close (evict). -/
def deliverMb (mb : Mailbox) (m : Msg) : Mailbox :=
  if mb.pending.length < messageBufferSize then ⟨mb.pending ++ [m], false⟩
  else ⟨mb.pending, true⟩

/-- The observable effects of one call of room.ServeHTTP, as a function
of whether upgrader.Upgrade succeeded.  On error the source calls
log.Fatal (which prints and exits the whole process; the return after
it is dead code) before any client is constructed.  On success it
builds the client with a send channel of capacity messageBufferSize,
sends it to the join channel, defers the leave, and starts the write
pump. -/
structure ServeEffect where
  sessionCreated : Bool
  mailboxCapacity : Option Nat
  joinIssued : Bool
  leaveDeferred : Bool
  writePumpStarted : Bool
  processExited : Bool
  deriving DecidableEq, Repr

/-- room.ServeHTTP, shallowly embedded over the upgrade outcome. -/
def serveHTTP (upgradeOk : Bool) : ServeEffect :=
  if upgradeOk then
    { sessionCreated := true
      mailboxCapacity := some messageBufferSize
      joinIssued := true
      leaveDeferred := true
      writePumpStarted := true
      processExited := false }
  else
    { sessionCreated := false
      mailboxCapacity := none
      joinIssued := false
      leaveDeferred := false
      writePumpStarted := false
      processExited := true }

/-- Every mailbox holds at most messageBufferSize queued messages. -/
def BoundedMb (st : RoomState) : Prop :=
  ∀ s, (st.mailbox s).pending.length ≤ messageBufferSize

/-- A mailbox filled to capacity, for concrete instantiations. -/
def fullMb : Mailbox :=
  ⟨List.replicate messageBufferSize [7], false⟩

/-- A concrete state with members 0 and 1 where the mailbox of 0 is at
capacity and the mailbox of 1 is empty. -/
def stFull : RoomState :=
  { clients := [0, 1]
    mailbox := fun t => if t = 0 then fullMb else ⟨[], false⟩
    trace := []
    faulted := false }

/-- A concrete state with members 0 and 1 and all mailboxes open and
empty. -/
def stOpen : RoomState :=
  { clients := [0, 1]
    mailbox := fun _ => ⟨[], false⟩
    trace := []
    faulted := false }

/-- A concrete state where session 0 has been removed and its mailbox
closed. -/
def stClosed : RoomState :=
  { clients := []
    mailbox := fun t => if t = 0 then ⟨[], true⟩ else ⟨[], false⟩
    trace := []
    faulted := false }

/-! Basic rewriting lemmas for the per-client forward body. -/

lemma forwardAll_nil (st : RoomState) (m : Msg) : forwardAll st [] m = st := rfl

lemma forwardAll_cons (st : RoomState) (c : Nat) (cs : List Nat) (m : Msg) :
    forwardAll st (c :: cs) m = forwardAll (forwardTo st c m) cs m := rfl

lemma runFrom_nil (st : RoomState) : runFrom st [] = st := rfl

lemma runFrom_cons (st : RoomState) (e : Event) (es : List Event) :
    runFrom st (e :: es) = runFrom (step st e) es := rfl

lemma setMailbox_same (f : Nat → Mailbox) (c : Nat) (mb : Mailbox) :
    setMailbox f c mb c = mb := by
  simp [setMailbox]

lemma setMailbox_ne (f : Nat → Mailbox) (c : Nat) (mb : Mailbox) (t : Nat) (h : t ≠ c) :
    setMailbox f c mb t = f t := by
  simp [setMailbox, h]

lemma forwardTo_eq_of_faulted (st : RoomState) (c : Nat) (m : Msg)
    (h : st.faulted = true) : forwardTo st c m = st := by
  simp [forwardTo, h]

lemma forwardTo_eq_of_closed (st : RoomState) (c : Nat) (m : Msg)
    (hnf : st.faulted = false) (hcl : (st.mailbox c).closed = true) :
    forwardTo st c m = { st with faulted := true } := by
  simp [forwardTo, hnf, hcl]

lemma forwardTo_eq_of_lt (st : RoomState) (c : Nat) (m : Msg)
    (hnf : st.faulted = false) (hcl : (st.mailbox c).closed = false)
    (hlt : (st.mailbox c).pending.length < messageBufferSize) :
    forwardTo st c m =
      { st with
          mailbox := setMailbox st.mailbox c ⟨(st.mailbox c).pending ++ [m], false⟩,
          trace := st.trace ++ [sentTrace] } := by
  simp [forwardTo, hnf, hcl, hlt]

lemma forwardTo_eq_of_full (st : RoomState) (c : Nat) (m : Msg)
    (hnf : st.faulted = false) (hcl : (st.mailbox c).closed = false)
    (hge : messageBufferSize ≤ (st.mailbox c).pending.length) :
    forwardTo st c m =
      { st with
          clients := st.clients.erase c,
          mailbox := setMailbox st.mailbox c ⟨(st.mailbox c).pending, true⟩,
          trace := st.trace ++ [failTrace] } := by
  simp [forwardTo, hnf, hcl, Nat.not_lt.mpr hge]

lemma forwardTo_mailbox_ne (st : RoomState) (c : Nat) (m : Msg) (t : Nat) (h : t ≠ c) :
    (forwardTo st c m).mailbox t = st.mailbox t := by
  unfold forwardTo
  split
  · rfl
  · split
    · rfl
    · split
      · simp [setMailbox, h]
      · simp [setMailbox, h]

lemma forwardTo_faulted_of_open (st : RoomState) (c : Nat) (m : Msg)
    (hnf : st.faulted = false) (hcl : (st.mailbox c).closed = false) :
    (forwardTo st c m).faulted = false := by
  by_cases hlt : (st.mailbox c).pending.length < messageBufferSize
  · rw [forwardTo_eq_of_lt st c m hnf hcl hlt]
    exact hnf
  · rw [forwardTo_eq_of_full st c m hnf hcl (Nat.not_lt.mp hlt)]
    exact hnf

lemma forwardTo_mailbox_self (st : RoomState) (c : Nat) (m : Msg)
    (hnf : st.faulted = false) (hcl : (st.mailbox c).closed = false) :
    (forwardTo st c m).mailbox c = deliverMb (st.mailbox c) m := by
  by_cases hlt : (st.mailbox c).pending.length < messageBufferSize
  · rw [forwardTo_eq_of_lt st c m hnf hcl hlt]
    simp [setMailbox, deliverMb, hlt]
  · rw [forwardTo_eq_of_full st c m hnf hcl (Nat.not_lt.mp hlt)]
    simp [setMailbox, deliverMb, hlt]

lemma forwardTo_trace_mono (st : RoomState) (c : Nat) (m : Msg) (x : String)
    (h : x ∈ st.trace) : x ∈ (forwardTo st c m).trace := by
  unfold forwardTo
  split
  · exact h
  · split
    · exact h
    · split
      · exact List.mem_append_left _ h
      · exact List.mem_append_left _ h

lemma forwardTo_clients_nodup (st : RoomState) (c : Nat) (m : Msg)
    (h : st.clients.Nodup) : (forwardTo st c m).clients.Nodup := by
  unfold forwardTo
  split
  · exact h
  · split
    · exact h
    · split
      · exact h
      · exact List.Nodup.erase c h

/-! Lemmas about the full fan-out fold. -/

lemma forwardAll_mailbox_not_mem (m : Msg) (cs : List Nat) :
    ∀ (st : RoomState) (t : Nat), t ∉ cs → (forwardAll st cs m).mailbox t = st.mailbox t := by
  induction cs with
  | nil =>
      intro st t _
      rfl
  | cons c cs ih =>
      intro st t h
      rw [forwardAll_cons,
        ih (forwardTo st c m) t (List.not_mem_of_not_mem_cons h),
        forwardTo_mailbox_ne st c m t (List.ne_of_not_mem_cons h)]

lemma forwardAll_faulted (m : Msg) (cs : List Nat) :
    ∀ (st : RoomState), st.faulted = false → cs.Nodup →
      (∀ c ∈ cs, (st.mailbox c).closed = false) →
      (forwardAll st cs m).faulted = false := by
  induction cs with
  | nil =>
      intro st h _ _
      exact h
  | cons c cs ih =>
      intro st hnf hnd hopen
      obtain ⟨hcn, hndt⟩ := List.nodup_cons.mp hnd
      rw [forwardAll_cons]
      refine ih (forwardTo st c m)
        (forwardTo_faulted_of_open st c m hnf (hopen c (List.mem_cons_self c cs))) hndt ?_
      intro d hd
      rw [forwardTo_mailbox_ne st c m d (ne_of_mem_of_not_mem hd hcn)]
      exact hopen d (List.mem_cons_of_mem c hd)

lemma forwardAll_mailbox_mem (m : Msg) (cs : List Nat) :
    ∀ (st : RoomState), st.faulted = false → cs.Nodup →
      (∀ c ∈ cs, (st.mailbox c).closed = false) →
      ∀ t ∈ cs, (forwardAll st cs m).mailbox t = deliverMb (st.mailbox t) m := by
  induction cs with
  | nil =>
      intro st _ _ _ t ht
      cases ht
  | cons c cs ih =>
      intro st hnf hnd hopen t ht
      obtain ⟨hcn, hndt⟩ := List.nodup_cons.mp hnd
      rw [forwardAll_cons]
      rcases List.mem_cons.mp ht with rfl | htc
      · rw [forwardAll_mailbox_not_mem m cs (forwardTo st t m) t hcn]
        exact forwardTo_mailbox_self st t m hnf (hopen t ht)
      · have hne : t ≠ c := ne_of_mem_of_not_mem htc hcn
        have hf1 := forwardTo_faulted_of_open st c m hnf (hopen c (List.mem_cons_self c cs))
        have hmb : ∀ d ∈ cs, ((forwardTo st c m).mailbox d).closed = false := by
          intro d hd
          rw [forwardTo_mailbox_ne st c m d (ne_of_mem_of_not_mem hd hcn)]
          exact hopen d (List.mem_cons_of_mem c hd)
        rw [ih (forwardTo st c m) hf1 hndt hmb t htc,
          forwardTo_mailbox_ne st c m t hne]

lemma forwardAll_clients_mem (m : Msg) (cs : List Nat) :
    ∀ (st : RoomState), st.faulted = false → cs.Nodup →
      (∀ c ∈ cs, (st.mailbox c).closed = false) → st.clients.Nodup →
      ∀ t, (t ∈ (forwardAll st cs m).clients ↔
        (t ∈ st.clients ∧ (t ∈ cs → (st.mailbox t).pending.length < messageBufferSize))) := by
  induction cs with
  | nil =>
      intro st _ _ _ _ t
      simp [forwardAll_nil]
  | cons c cs ih =>
      intro st hnf hnd hopen hcnd t
      obtain ⟨hcn, hndt⟩ := List.nodup_cons.mp hnd
      have hc := hopen c (List.mem_cons_self c cs)
      have hfa := forwardTo_faulted_of_open st c m hnf hc
      have hopen1 : ∀ d ∈ cs, ((forwardTo st c m).mailbox d).closed = false := by
        intro d hd
        rw [forwardTo_mailbox_ne st c m d (ne_of_mem_of_not_mem hd hcn)]
        exact hopen d (List.mem_cons_of_mem c hd)
      have hnd1 : (forwardTo st c m).clients.Nodup := forwardTo_clients_nodup st c m hcnd
      rw [forwardAll_cons, ih (forwardTo st c m) hfa hndt hopen1 hnd1 t]
      by_cases hlt : (st.mailbox c).pending.length < messageBufferSize
      · rw [forwardTo_eq_of_lt st c m hnf hc hlt]
        by_cases htc : t = c
        · subst htc
          simp [setMailbox, hcn, hlt]
        · simp [setMailbox, htc, List.mem_cons]
      · rw [forwardTo_eq_of_full st c m hnf hc (Nat.not_lt.mp hlt)]
        by_cases htc : t = c
        · subst htc
          simp [setMailbox, hcn, hlt, List.Nodup.mem_erase_iff hcnd]
        · simp [setMailbox, htc, List.mem_cons, List.Nodup.mem_erase_iff hcnd]

lemma forwardAll_clients_eq (m : Msg) (cs : List Nat) :
    ∀ (st : RoomState), st.faulted = false → cs.Nodup →
      (∀ c ∈ cs, (st.mailbox c).closed = false ∧
        (st.mailbox c).pending.length < messageBufferSize) →
      (forwardAll st cs m).clients = st.clients := by
  induction cs with
  | nil =>
      intro st _ _ _
      rfl
  | cons c cs ih =>
      intro st hnf hnd hcap
      obtain ⟨hcn, hndt⟩ := List.nodup_cons.mp hnd
      obtain ⟨hc, hlt⟩ := hcap c (List.mem_cons_self c cs)
      have hfa := forwardTo_faulted_of_open st c m hnf hc
      have hcap1 : ∀ d ∈ cs, ((forwardTo st c m).mailbox d).closed = false ∧
          ((forwardTo st c m).mailbox d).pending.length < messageBufferSize := by
        intro d hd
        rw [forwardTo_mailbox_ne st c m d (ne_of_mem_of_not_mem hd hcn)]
        exact hcap d (List.mem_cons_of_mem c hd)
      rw [forwardAll_cons, ih (forwardTo st c m) hfa hndt hcap1,
        forwardTo_eq_of_lt st c m hnf hc hlt]

lemma forwardAll_trace_mono (m : Msg) (cs : List Nat) :
    ∀ (st : RoomState) (x : String), x ∈ st.trace → x ∈ (forwardAll st cs m).trace := by
  induction cs with
  | nil =>
      intro st x h
      exact h
  | cons c cs ih =>
      intro st x h
      rw [forwardAll_cons]
      exact ih (forwardTo st c m) x (forwardTo_trace_mono st c m x h)

lemma forwardAll_trace_fail (m : Msg) (cs : List Nat) :
    ∀ (st : RoomState), st.faulted = false → cs.Nodup →
      (∀ c ∈ cs, (st.mailbox c).closed = false) →
      ∀ c ∈ cs, messageBufferSize ≤ (st.mailbox c).pending.length →
      failTrace ∈ (forwardAll st cs m).trace := by
  induction cs with
  | nil =>
      intro st _ _ _ c hc _
      cases hc
  | cons d cs ih =>
      intro st hnf hnd hopen c hc hge
      obtain ⟨hdn, hndt⟩ := List.nodup_cons.mp hnd
      have hd := hopen d (List.mem_cons_self d cs)
      rw [forwardAll_cons]
      have hcd : c = d ∨ c ∈ cs := List.mem_cons.mp hc
      rcases hcd with rfl | hcs
      · apply forwardAll_trace_mono
        rw [forwardTo_eq_of_full st c m hnf hd hge]
        simp
      · have hfa := forwardTo_faulted_of_open st d m hnf hd
        have hopen1 : ∀ x ∈ cs, ((forwardTo st d m).mailbox x).closed = false := by
          intro x hx
          rw [forwardTo_mailbox_ne st d m x (ne_of_mem_of_not_mem hx hdn)]
          exact hopen x (List.mem_cons_of_mem d hx)
        have hge1 : messageBufferSize ≤ ((forwardTo st d m).mailbox c).pending.length := by
          rw [forwardTo_mailbox_ne st d m c (ne_of_mem_of_not_mem hcs hdn)]
          exact hge
        exact ih (forwardTo st d m) hfa hndt hopen1 c hcs hge1

/-! Once a mailbox is closed, nothing the loop does ever changes it. -/

lemma forwardTo_mailbox_frozen (st : RoomState) (c : Nat) (m : Msg) (s : Nat)
    (h : (st.mailbox s).closed = true) :
    (forwardTo st c m).mailbox s = st.mailbox s := by
  by_cases hcs : s = c
  · subst hcs
    unfold forwardTo
    split
    · rfl
    · simp [h]
  · exact forwardTo_mailbox_ne st c m s hcs

lemma forwardAll_mailbox_frozen (m : Msg) (cs : List Nat) :
    ∀ (st : RoomState) (s : Nat), (st.mailbox s).closed = true →
      (forwardAll st cs m).mailbox s = st.mailbox s := by
  induction cs with
  | nil =>
      intro st s _
      rfl
  | cons c cs ih =>
      intro st s h
      have hfr := forwardTo_mailbox_frozen st c m s h
      rw [forwardAll_cons, ih (forwardTo st c m) s (by rw [hfr]; exact h), hfr]

lemma step_mailbox_frozen (st : RoomState) (e : Event) (s : Nat)
    (h : (st.mailbox s).closed = true) :
    (step st e).mailbox s = st.mailbox s := by
  cases e with
  | join t =>
      simp only [step]
      split
      · rfl
      · rfl
  | leave t =>
      simp only [step]
      split
      · rfl
      · split
        · rfl
        · next hcond =>
            by_cases hts : s = t
            · subst hts
              exact absurd h hcond
            · exact setMailbox_ne st.mailbox t _ s hts
  | forward m =>
      simp only [step]
      split
      · rfl
      · exact forwardAll_mailbox_frozen m st.clients st s h

lemma runFrom_mailbox_frozen (s : Nat) (es : List Event) :
    ∀ (st : RoomState), (st.mailbox s).closed = true →
      (runFrom st es).mailbox s = st.mailbox s := by
  induction es with
  | nil =>
      intro st _
      rfl
  | cons e es ih =>
      intro st h
      have hfr := step_mailbox_frozen st e s h
      rw [runFrom_cons, ih (step st e) (by rw [hfr]; exact h), hfr]

/-! The capacity invariant: no mailbox ever holds more than
messageBufferSize queued messages. -/

lemma forwardTo_bounded (st : RoomState) (c : Nat) (m : Msg)
    (h : BoundedMb st) : BoundedMb (forwardTo st c m) := by
  intro s
  by_cases hcs : s = c
  · subst hcs
    unfold forwardTo
    split
    · exact h s
    · split
      · exact h s
      · split
        · next hlt =>
            simp only [setMailbox_same, List.length_append, List.length_singleton]
            exact hlt
        · simp only [setMailbox_same]
          exact h s
  · rw [forwardTo_mailbox_ne st c m s hcs]
    exact h s

lemma forwardAll_bounded (m : Msg) (cs : List Nat) :
    ∀ (st : RoomState), BoundedMb st → BoundedMb (forwardAll st cs m) := by
  induction cs with
  | nil =>
      intro st h
      exact h
  | cons c cs ih =>
      intro st h
      rw [forwardAll_cons]
      exact ih (forwardTo st c m) (forwardTo_bounded st c m h)

lemma step_bounded (st : RoomState) (e : Event) (h : BoundedMb st) :
    BoundedMb (step st e) := by
  cases e with
  | join t =>
      intro s
      simp only [step]
      split
      · exact h s
      · exact h s
  | leave t =>
      intro s
      simp only [step]
      split
      · exact h s
      · split
        · exact h s
        · by_cases hts : s = t
          · subst hts
            simp only [setMailbox_same]
            exact h s
          · simp only [setMailbox_ne st.mailbox t _ s hts]
            exact h s
  | forward m =>
      simp only [step]
      split
      · exact h
      · exact forwardAll_bounded m st.clients st h

lemma runFrom_bounded (es : List Event) :
    ∀ (st : RoomState), BoundedMb st → BoundedMb (runFrom st es) := by
  induction es with
  | nil =>
      intro st h
      exact h
  | cons e es ih =>
      intro st h
      rw [runFrom_cons]
      exact ih (step st e) (step_bounded st e h)

lemma run_bounded (es : List Event) : BoundedMb (run es) := by
  refine runFrom_bounded es newRoom ?_
  intro s
  simp [newRoom, messageBufferSize]

lemma step_forward_eq (st : RoomState) (m : Msg) (hnf : st.faulted = false) :
    step st (Event.forward m) = forwardAll st st.clients m := by
  simp [step, hnf]

/-- Claim C1: the spec demands that a Leave (or eviction) for a session
already absent from the Membership Set be a safe no-op that does not
fault the coordination loop.  The code violates this: the leave case of
room.run unconditionally calls close(client.send), and closing an
already-closed channel panics the run goroutine, so the loop processes
no further events.  Concretely, after Join 0 and Leave 0 the session 0
is absent and its mailbox closed; a second Leave 0 faults the loop,
whereas a single Leave does not, and a Forward arriving after the fault
is no longer processed (the trace does not grow). -/
theorem doubleLeave_faults_loop :
    (run [Event.join 0, Event.leave 0, Event.leave 0]).faulted = true ∧
    (run [Event.join 0, Event.leave 0]).faulted = false ∧
    (run [Event.join 0, Event.leave 0, Event.leave 0, Event.forward [1]]).trace =
      (run [Event.join 0, Event.leave 0]).trace := by
  decide

/-- Claim C2: the spec demands that an upgrade failure reject only that
request while processing of other requests and sessions continues.  In
the code, room.ServeHTTP indeed creates no client and touches neither
the join nor the leave channel on upgrade failure, but it calls
log.Fatal, which terminates the entire process, so no other request or
session continues either (the return after log.Fatal is dead code). -/
theorem upgradeFailure_exits_process :
    (serveHTTP false).sessionCreated = false ∧
    (serveHTTP false).joinIssued = false ∧
    (serveHTTP false).leaveDeferred = false ∧
    (serveHTTP false).writePumpStarted = false ∧
    (serveHTTP false).processExited = true := by
  decide

/-- Claim C5: the spec demands that for every finite event sequence the
final Membership Set equal the set of sessions joined but not since
left (eviction counting as a leave).  The code violates this for any
sequence containing a Leave of an already-left session: replaying
Join 3, Join 4, Leave 3, Leave 3, Join 5 faults the loop at the second
Leave 3 (close of an already-closed mailbox), so Join 5 is never
processed and membership ends as the singleton 4 although
joined-but-not-left is the pair 4 and 5.  Without the doubled Leave the
same replay does yield exactly joined-but-not-left. -/
theorem membership_replay_faults_on_double_leave :
    (run [Event.join 3, Event.join 4, Event.leave 3, Event.leave 3, Event.join 5]).clients
      = [4] ∧
    (run [Event.join 3, Event.join 4, Event.leave 3, Event.leave 3, Event.join 5]).faulted
      = true ∧
    (run [Event.join 3, Event.join 4, Event.leave 3, Event.join 5]).clients = [4, 5] := by
  decide

/-- Claim C3: when a member session s has its mailbox at capacity,
processing a Forward removes s from the Membership Set and closes its
mailbox without enqueueing the message (the same cleanup as Leave),
emits the failed-send trace event, and still delivers the message to
every other member whose mailbox has spare capacity, which also stays
a member; moreover any member removed by this Forward had a mailbox at
capacity, so no session with spare capacity is evicted.  Hypotheses:
the loop is alive, the map keys are distinct (Go map invariant), and
every member mailbox is open (the loop closes a mailbox only when it
removes the session, so members are open in every reachable state). -/
theorem forward_full_mailbox_evicts (st : RoomState) (m : Msg) (s : Nat)
    (hnf : st.faulted = false)
    (hndc : st.clients.Nodup)
    (hopen : ∀ t ∈ st.clients, (st.mailbox t).closed = false)
    (hs : s ∈ st.clients)
    (hfull : (st.mailbox s).pending.length = messageBufferSize) :
    s ∉ (step st (Event.forward m)).clients ∧
    ((step st (Event.forward m)).mailbox s).closed = true ∧
    ((step st (Event.forward m)).mailbox s).pending = (st.mailbox s).pending ∧
    failTrace ∈ (step st (Event.forward m)).trace ∧
    (∀ t ∈ st.clients, t ≠ s → (st.mailbox t).pending.length < messageBufferSize →
      t ∈ (step st (Event.forward m)).clients ∧
      ((step st (Event.forward m)).mailbox t).pending = (st.mailbox t).pending ++ [m]) ∧
    (∀ t ∈ st.clients, t ∉ (step st (Event.forward m)).clients →
      messageBufferSize ≤ (st.mailbox t).pending.length) := by
  have hge : messageBufferSize ≤ (st.mailbox s).pending.length := hfull.ge
  have hnlt : ¬ (st.mailbox s).pending.length < messageBufferSize := Nat.not_lt.mpr hge
  rw [step_forward_eq st m hnf]
  refine ⟨?_, ?_, ?_, ?_, ?_, ?_⟩
  · rw [forwardAll_clients_mem m st.clients st hnf hndc hopen hndc s]
    rintro ⟨_, himp⟩
    exact hnlt (himp hs)
  · rw [forwardAll_mailbox_mem m st.clients st hnf hndc hopen s hs]
    simp [deliverMb, hnlt]
  · rw [forwardAll_mailbox_mem m st.clients st hnf hndc hopen s hs]
    simp [deliverMb, hnlt]
  · exact forwardAll_trace_fail m st.clients st hnf hndc hopen s hs hge
  · intro t ht hts hlt
    constructor
    · rw [forwardAll_clients_mem m st.clients st hnf hndc hopen hndc t]
      exact ⟨ht, fun _ => hlt⟩
    · rw [forwardAll_mailbox_mem m st.clients st hnf hndc hopen t ht]
      simp [deliverMb, hlt]
  · intro t ht htn
    by_contra hcon
    exact htn ((forwardAll_clients_mem m st.clients st hnf hndc hopen hndc t).mpr
      ⟨ht, fun _ => Nat.not_le.mp hcon⟩)

/-- Witness for claim C3 at a concrete input: members 0 and 1, the
mailbox of 0 filled to capacity, the mailbox of 1 empty; forwarding
message [5] evicts 0 (removed, closed, message dropped, failure traced)
and delivers [5] to 1, which stays a member. -/
theorem forward_full_mailbox_evicts_witness :
    (stFull.mailbox 0).pending.length = messageBufferSize ∧
    0 ∉ (step stFull (Event.forward [5])).clients ∧
    ((step stFull (Event.forward [5])).mailbox 0).closed = true ∧
    failTrace ∈ (step stFull (Event.forward [5])).trace ∧
    1 ∈ (step stFull (Event.forward [5])).clients ∧
    ((step stFull (Event.forward [5])).mailbox 1).pending = [[5]] := by
  have h := forward_full_mailbox_evicts stFull [5] 0 (by decide) (by decide)
    (by decide) (by decide) (by simp [stFull, fullMb])
  have h4 := h.2.2.2.2.1 1 (by decide) (by decide) (by decide)
  exact ⟨by simp [stFull, fullMb], h.1, h.2.1, h.2.2.2.1, h4.1,
    by rw [h4.2]; decide⟩

/-- Claim C4: when every member mailbox has spare capacity, processing
a Forward enqueues the message (by the non-blocking per-member enqueue
forwardTo) onto exactly the mailboxes of the current members — each
member mailbox gains the message at its tail and stays open, every
non-member mailbox is completely untouched — and the Membership Set is
unchanged. -/
theorem forward_delivers_to_all_members (st : RoomState) (m : Msg)
    (hnf : st.faulted = false)
    (hndc : st.clients.Nodup)
    (hcap : ∀ t ∈ st.clients, (st.mailbox t).closed = false ∧
      (st.mailbox t).pending.length < messageBufferSize) :
    (step st (Event.forward m)).clients = st.clients ∧
    (∀ t ∈ st.clients,
      ((step st (Event.forward m)).mailbox t).pending = (st.mailbox t).pending ++ [m] ∧
      ((step st (Event.forward m)).mailbox t).closed = false) ∧
    (∀ t, t ∉ st.clients → (step st (Event.forward m)).mailbox t = st.mailbox t) := by
  have hopen : ∀ t ∈ st.clients, (st.mailbox t).closed = false := fun t ht => (hcap t ht).1
  rw [step_forward_eq st m hnf]
  refine ⟨forwardAll_clients_eq m st.clients st hnf hndc hcap, ?_, ?_⟩
  · intro t ht
    rw [forwardAll_mailbox_mem m st.clients st hnf hndc hopen t ht]
    simp [deliverMb, (hcap t ht).2]
  · intro t ht
    exact forwardAll_mailbox_not_mem m st.clients st t ht

/-- Witness for claim C4 at a concrete input: members 0 and 1 with
empty open mailboxes; forwarding [9] leaves membership unchanged,
appends [9] to both member mailboxes, and leaves the mailbox of the
non-member 5 untouched. -/
theorem forward_delivers_to_all_members_witness :
    (step stOpen (Event.forward [9])).clients = stOpen.clients ∧
    ((step stOpen (Event.forward [9])).mailbox 0).pending = [[9]] ∧
    ((step stOpen (Event.forward [9])).mailbox 1).pending = [[9]] ∧
    (step stOpen (Event.forward [9])).mailbox 5 = stOpen.mailbox 5 := by
  have h := forward_delivers_to_all_members stOpen [9] (by decide) (by decide) (by decide)
  have h0 := h.2.1 0 (by decide)
  have h1 := h.2.1 1 (by decide)
  exact ⟨h.1, by rw [h0.1]; decide, by rw [h1.1]; decide, h.2.2 5 (by decide)⟩

/-- Claim C6: broadcast is sender-inclusive.  The forward channel of
the room carries only the message bytes and no sender identity, so the
fan-out in room.run cannot and does not exclude the submitting session:
every session in the Membership Set, in particular the member that
submitted the message through its inbound pump, has the message
enqueued onto its mailbox (given spare capacity) and stays a member. -/
theorem forward_sender_inclusive (st : RoomState) (m : Msg) (s : Nat)
    (hnf : st.faulted = false)
    (hndc : st.clients.Nodup)
    (hopen : ∀ t ∈ st.clients, (st.mailbox t).closed = false)
    (hs : s ∈ st.clients)
    (hcap : (st.mailbox s).pending.length < messageBufferSize) :
    ((step st (Event.forward m)).mailbox s).pending = (st.mailbox s).pending ++ [m] ∧
    s ∈ (step st (Event.forward m)).clients := by
  rw [step_forward_eq st m hnf]
  constructor
  · rw [forwardAll_mailbox_mem m st.clients st hnf hndc hopen s hs]
    simp [deliverMb, hcap]
  · rw [forwardAll_clients_mem m st.clients st hnf hndc hopen hndc s]
    exact ⟨hs, fun _ => hcap⟩

/-- Witness for claim C6 at a concrete input: member 0 submits message
[3]; the fan-out delivers [3] back onto the mailbox of 0 itself, and 0
remains a member. -/
theorem forward_sender_inclusive_witness :
    ((step stOpen (Event.forward [3])).mailbox 0).pending = [[3]] ∧
    0 ∈ (step stOpen (Event.forward [3])).clients := by
  have h := forward_sender_inclusive stOpen [3] 0 (by decide) (by decide) (by decide)
    (by decide) (by decide)
  exact ⟨by rw [h.1]; decide, h.2⟩

/-- Claim C7: no message is ever enqueued onto the mailbox of a session
after that session has been removed from the Membership Set.  Both
removal paths close the mailbox of the removed session (parts two and
three: an explicit Leave, and a Forward-triggered eviction of a member
at capacity), and part one shows the closed state is permanent: from
any state in which the mailbox of s is closed, replaying any further
event sequence — in particular any Forward events — leaves the queued
messages of s exactly as they were and the mailbox closed. -/
theorem no_enqueue_after_removal (st : RoomState) (s : Nat) (es : List Event) (m : Msg) :
    ((st.mailbox s).closed = true →
      ((runFrom st es).mailbox s).pending = (st.mailbox s).pending ∧
      ((runFrom st es).mailbox s).closed = true) ∧
    (st.faulted = false → (st.mailbox s).closed = false →
      ((step st (Event.leave s)).mailbox s).closed = true) ∧
    (st.faulted = false → st.clients.Nodup →
      (∀ t ∈ st.clients, (st.mailbox t).closed = false) →
      s ∈ st.clients → messageBufferSize ≤ (st.mailbox s).pending.length →
      ((step st (Event.forward m)).mailbox s).closed = true) := by
  refine ⟨fun h => ?_, fun hnf hcl => ?_, fun hnf hndc hopen hs hge => ?_⟩
  · rw [runFrom_mailbox_frozen s es st h]
    exact ⟨rfl, h⟩
  · simp [step, hnf, hcl, setMailbox]
  · rw [step_forward_eq st m hnf,
      forwardAll_mailbox_mem m st.clients st hnf hndc hopen s hs]
    simp [deliverMb, Nat.not_lt.mpr hge]

/-- Witness for claim C7 at concrete inputs: the closed mailbox of the
removed session 0 still holds no message after replaying a Forward, a
Join and a Leave; a Leave closes the mailbox of the leaving member 0;
an eviction closes the mailbox of the at-capacity member 0. -/
theorem no_enqueue_after_removal_witness :
    ((runFrom stClosed [Event.forward [2], Event.join 0, Event.leave 1]).mailbox 0).pending
      = [] ∧
    ((runFrom stClosed [Event.forward [2], Event.join 0, Event.leave 1]).mailbox 0).closed
      = true ∧
    ((step stOpen (Event.leave 0)).mailbox 0).closed = true ∧
    ((step stFull (Event.forward [8])).mailbox 0).closed = true := by
  have h := no_enqueue_after_removal stClosed 0 [Event.forward [2], Event.join 0, Event.leave 1] [2]
  have h1 := h.1 (by decide)
  have h2 := (no_enqueue_after_removal stOpen 0 [] [2]).2.1 (by decide) (by decide)
  have h3 := (no_enqueue_after_removal stFull 0 [] [8]).2.2 (by decide) (by decide)
    (by decide) (by decide) (by simp [stFull, fullMb])
  exact ⟨by rw [h1.1]; decide, h1.2, h2, h3⟩

/-- Claim C8: Join is idempotent on the Membership Set.  Processing a
Join for a session s already in the set leaves the key list of the
clients map literally unchanged (Go map assignment of an existing key),
s remains a member exactly once, the loop does not fault, no mailbox is
touched, and only the join trace event is emitted again. -/
theorem join_idempotent (st : RoomState) (s : Nat)
    (hnf : st.faulted = false)
    (hndc : st.clients.Nodup)
    (hs : s ∈ st.clients) :
    (step st (Event.join s)).clients = st.clients ∧
    (step st (Event.join s)).clients.count s = 1 ∧
    (step st (Event.join s)).faulted = false ∧
    (step st (Event.join s)).mailbox = st.mailbox ∧
    (step st (Event.join s)).trace = st.trace ++ [joinTrace] := by
  have hcl : (step st (Event.join s)).clients = st.clients := by
    simp [step, hnf, mapInsert, hs]
  refine ⟨hcl, ?_, by simp [step, hnf], by simp [step, hnf], by simp [step, hnf]⟩
  rw [hcl]
  exact List.count_eq_one_of_mem hndc hs

/-- Witness for claim C8 at a concrete input: session 0 is already a
member of stOpen; a second Join 0 leaves the member list [0, 1]
unchanged with 0 counted once, does not fault, and only adds the join
trace event. -/
theorem join_idempotent_witness :
    (step stOpen (Event.join 0)).clients = [0, 1] ∧
    (step stOpen (Event.join 0)).clients.count 0 = 1 ∧
    (step stOpen (Event.join 0)).faulted = false ∧
    (step stOpen (Event.join 0)).trace = [joinTrace] := by
  have h := join_idempotent stOpen 0 (by decide) (by decide) (by decide)
  exact ⟨h.1, h.2.1, h.2.2.1, h.2.2.2.2⟩

lemma forwardTo_enqueue_iff (st : RoomState) (c : Nat) (m : Msg)
    (hnf : st.faulted = false) (hcl : (st.mailbox c).closed = false) :
    (((forwardTo st c m).mailbox c).pending = (st.mailbox c).pending ++ [m] ↔
      (st.mailbox c).pending.length < messageBufferSize) ∧
    (((forwardTo st c m).mailbox c).closed = true ↔
      messageBufferSize ≤ (st.mailbox c).pending.length) := by
  by_cases hlt : (st.mailbox c).pending.length < messageBufferSize
  · rw [forwardTo_eq_of_lt st c m hnf hcl hlt]
    constructor
    · simp [setMailbox, hlt]
    · simp [setMailbox, Nat.not_le.mpr hlt]
  · have hge := Nat.not_lt.mp hlt
    rw [forwardTo_eq_of_full st c m hnf hcl hge]
    constructor
    · simp only [setMailbox_same]
      constructor
      · intro h
        have hlen := congrArg List.length h
        simp [List.length_append] at hlen
      · intro h
        exact absurd h hlt
    · simp [setMailbox, hge]

/-- Claim C9: every mailbox has fixed capacity exactly 256: the
constant messageBufferSize (the capacity ServeHTTP gives the send
channel of every new session) is 256; in every state reachable by
replaying events from the initial room, every mailbox holds at most
messageBufferSize queued messages; a non-blocking forward enqueue onto
an open mailbox places the message if and only if fewer than
messageBufferSize messages are queued, and triggers eviction (closes
the mailbox) if and only if the queue already holds messageBufferSize
unconsumed messages. -/
theorem mailbox_capacity_256 :
    messageBufferSize = 256 ∧
    (∀ es s, ((run es).mailbox s).pending.length ≤ messageBufferSize) ∧
    (∀ (st : RoomState) (c : Nat) (m : Msg), st.faulted = false →
      (st.mailbox c).closed = false →
      (((forwardTo st c m).mailbox c).pending = (st.mailbox c).pending ++ [m] ↔
        (st.mailbox c).pending.length < messageBufferSize) ∧
      (((forwardTo st c m).mailbox c).closed = true ↔
        messageBufferSize ≤ (st.mailbox c).pending.length)) ∧
    (serveHTTP true).mailboxCapacity = some messageBufferSize := by
  refine ⟨rfl, ?_, ?_, rfl⟩
  · intro es s
    exact run_bounded es s
  · intro st c m hnf hcl
    exact forwardTo_enqueue_iff st c m hnf hcl

/-- Witness for claim C9 at concrete inputs: after Join 0 and one
Forward the mailbox of 0 holds at most messageBufferSize messages; on
the empty open mailbox of member 0 the enqueue of [4] succeeds because
0 messages are queued; on the at-capacity mailbox of 0 in stFull the
enqueue closes the mailbox. -/
theorem mailbox_capacity_256_witness :
    messageBufferSize = 256 ∧
    ((run [Event.join 0, Event.forward [1]]).mailbox 0).pending.length
      ≤ messageBufferSize ∧
    ((forwardTo stOpen 0 [4]).mailbox 0).pending = (stOpen.mailbox 0).pending ++ [[4]] ∧
    ((forwardTo stFull 0 [4]).mailbox 0).closed = true := by
  have h := mailbox_capacity_256
  refine ⟨h.1, h.2.1 [Event.join 0, Event.forward [1]] 0, ?_, ?_⟩
  · exact (h.2.2.1 stOpen 0 [4] (by decide) (by decide)).1.mpr (by decide)
  · exact (h.2.2.1 stFull 0 [4] (by decide) (by decide)).2.mpr (by simp [stFull, fullMb])

/-- Claim C10: when a Forward evicts a member session s because its
mailbox is at capacity, the triggering message is never placed in the
mailbox of s: the queued messages of s are unchanged by the Forward,
the mailbox is closed, the failed enqueue is never retried (after any
further event sequence the queued messages of s are still exactly the
old ones), and the message is dropped only for s — every other member
with spare capacity still receives it. -/
theorem evicting_forward_drops_message (st : RoomState) (m : Msg) (s : Nat)
    (es : List Event)
    (hnf : st.faulted = false)
    (hndc : st.clients.Nodup)
    (hopen : ∀ t ∈ st.clients, (st.mailbox t).closed = false)
    (hs : s ∈ st.clients)
    (hge : messageBufferSize ≤ (st.mailbox s).pending.length) :
    ((step st (Event.forward m)).mailbox s).pending = (st.mailbox s).pending ∧
    ((step st (Event.forward m)).mailbox s).closed = true ∧
    ((runFrom (step st (Event.forward m)) es).mailbox s).pending
      = (st.mailbox s).pending ∧
    (∀ t ∈ st.clients, t ≠ s → (st.mailbox t).pending.length < messageBufferSize →
      ((step st (Event.forward m)).mailbox t).pending = (st.mailbox t).pending ++ [m]) := by
  have hnlt : ¬ (st.mailbox s).pending.length < messageBufferSize := Nat.not_lt.mpr hge
  have hmb : (step st (Event.forward m)).mailbox s = deliverMb (st.mailbox s) m := by
    rw [step_forward_eq st m hnf]
    exact forwardAll_mailbox_mem m st.clients st hnf hndc hopen s hs
  have hpend : ((step st (Event.forward m)).mailbox s).pending = (st.mailbox s).pending := by
    rw [hmb]
    simp [deliverMb, hnlt]
  have hcl : ((step st (Event.forward m)).mailbox s).closed = true := by
    rw [hmb]
    simp [deliverMb, hnlt]
  refine ⟨hpend, hcl, ?_, ?_⟩
  · rw [runFrom_mailbox_frozen s es (step st (Event.forward m)) hcl]
    exact hpend
  · intro t ht hts hlt
    rw [step_forward_eq st m hnf,
      forwardAll_mailbox_mem m st.clients st hnf hndc hopen t ht]
    simp [deliverMb, hlt]

/-- Witness for claim C10 at a concrete input: member 0 is at capacity
in stFull; forwarding [6] leaves the queued messages of 0 at exactly
the 256 old ones (the triggering message is dropped), closes the
mailbox of 0, keeps them unchanged after a further Forward and Join,
and still delivers [6] to member 1. -/
theorem evicting_forward_drops_message_witness :
    ((step stFull (Event.forward [6])).mailbox 0).pending = (stFull.mailbox 0).pending ∧
    ((step stFull (Event.forward [6])).mailbox 0).closed = true ∧
    ((runFrom (step stFull (Event.forward [6])) [Event.forward [7], Event.join 2]).mailbox 0).pending
      = (stFull.mailbox 0).pending ∧
    ((step stFull (Event.forward [6])).mailbox 1).pending = [[6]] := by
  have h := evicting_forward_drops_message stFull [6] 0 [Event.forward [7], Event.join 2]
    (by decide) (by decide) (by decide) (by decide) (by simp [stFull, fullMb])
  have h4 := h.2.2.2 1 (by decide) (by decide) (by decide)
  exact ⟨h.1, h.2.1, h.2.2.1, by rw [h4]; decide⟩
